import Mathlib

/-
Verification of the ai-code-review repository against its specification.

The repository ships the React client (src/frontend/src/lib/api.ts and the
App components) while the FastAPI backend (job state machine, analysis
aggregator, AI summarizer, file tree accessor) is not part of the sources
at hand; those components are modelled from the specification text, and each
such definition carries a doc comment saying so. Client-side behavior is
embedded directly from the TypeScript sources.
-/

/-- Severity of a finding: low, medium or high (data model section 3). -/
inductive Severity where
  | low
  | medium
  | high
deriving DecidableEq, Repr

/-- Numeric rank of a severity, used for the descending severity sort:
high is largest. -/
def severityRank : Severity → Nat
  | .low => 0
  | .medium => 1
  | .high => 2

/-- One static-analysis observation, the vpoint shape of data model section 3. -/
structure Finding where
  tool : String
  severity : Severity
  code : Option String
  message : String
  path : String
  line : Nat
  endLine : Option Nat
deriving DecidableEq, Repr

/-- Identity key used by the aggregator for deduplication:
(tool, path, line, code). -/
def identityKey (f : Finding) : String × String × Nat × Option String :=
  (f.tool, f.path, f.line, f.code)

/-- Modelled from the spec: the outcome of one Tool Runner invocation
(section 4.1, absent from src): either normalized findings or a per-tool
error, never a process-fatal failure. -/
inductive ToolOutcome where
  | ok (findings : List Finding)
  | err (msg : String)
deriving DecidableEq, Repr

/-- The findings a tool outcome contributes: a failed tool contributes none. -/
def ToolOutcome.contributed : ToolOutcome → List Finding
  | .ok fs => fs
  | .err _ => []

/-- The recorded per-tool error of a tool outcome, if any. -/
def ToolOutcome.toolError : ToolOutcome → Option String
  | .ok _ => none
  | .err m => some m

/-- Concatenation of the findings of all tool outcomes, in tool order. -/
def concatFindings (outcomes : List ToolOutcome) : List Finding :=
  (outcomes.map ToolOutcome.contributed).flatten

/-- Deduplication by identity key, keeping the first occurrence of each key. -/
def dedupByKey : List Finding → List Finding
  | [] => []
  | f :: rest =>
    f :: dedupByKey (rest.filter fun g => !(decide (identityKey g = identityKey f)))
termination_by l => l.length
decreasing_by
  simp only [List.length_cons]
  exact Nat.lt_succ_of_le (List.length_filter_le _ _)

/-- The deterministic finding order of section 4.3: path ascending, then line
ascending, then severity descending. -/
def findingLE (a b : Finding) : Bool :=
  decide (a.path < b.path) ||
    (decide (a.path = b.path) &&
      (decide (a.line < b.line) ||
        (decide (a.line = b.line) &&
          decide (severityRank b.severity ≤ severityRank a.severity))))

/-- Modelled from the spec: the Analysis Aggregator (section 4.3, absent from
src) concatenates the findings of all tools, deduplicates by identity key
keeping the first occurrence, sorts by (path asc, line asc, severity desc),
and records the per-tool errors. -/
def aggregate (outcomes : List ToolOutcome) : List Finding × List String :=
  ((dedupByKey (concatFindings outcomes)).mergeSort findingLE,
   outcomes.filterMap ToolOutcome.toolError)

/-- One checklist entry of the AI summary object (data model section 3). -/
structure ChecklistItem where
  title : String
  severity : Option Severity
  why : Option String
  how : Option String
deriving DecidableEq, Repr

/-- The AI field of an AnalysisResult: either a summary object or an error
marker, matching the client rendering branch on jobResults.ai.error. -/
inductive AIField where
  | ok (summary : String) (checklist : List ChecklistItem) (top_wins : List String)
  | errorMarker (msg : String)
deriving DecidableEq, Repr

/-- The payload of a terminal successful Job (data model section 3). -/
structure AnalysisResult where
  vpoints : List Finding
  ai : AIField
  tool_errors : List String
  projectId : Option String
deriving DecidableEq, Repr

/-- Job lifecycle status (section 4.2). -/
inductive JobStatus where
  | pending
  | running
  | done
  | error
deriving DecidableEq, Repr

/-- One analysis run against one project (data model section 3). -/
structure Job where
  id : String
  projectId : String
  status : JobStatus
  results : Option AnalysisResult
  error : Option String
deriving DecidableEq, Repr

/-- A freshly created Job: pending, with null results and error. -/
def mkJob (id projectId : String) : Job :=
  { id := id, projectId := projectId, status := .pending,
    results := none, error := none }

/-- Modelled from the spec: the Job State Machine transitions of section 4.2
(absent from src). pending steps to running exactly once; running steps to a
terminal state with results and error written atomically at that moment; no
constructor steps out of a terminal state. -/
inductive JobStep : Job → Job → Prop where
  | start (j : Job) (h : j.status = .pending) :
      JobStep j { j with status := .running }
  | finishDone (j : Job) (r : AnalysisResult) (h : j.status = .running) :
      JobStep j { j with status := .done, results := some r, error := none }
  | finishError (j : Job) (e : String) (h : j.status = .running) :
      JobStep j { j with status := .error, results := none, error := some e }

/-- The Jobs reachable from creation through the state machine. -/
inductive ReachableJob : Job → Prop where
  | init (id projectId : String) : ReachableJob (mkJob id projectId)
  | step {a b : Job} : ReachableJob a → JobStep a b → ReachableJob b

/-- Modelled from the spec: the outcome of the single fallible AI
summarization call (section 4.4, absent from src); failure covers the call
failing, timing out, or returning unparseable output. -/
inductive AICallOutcome where
  | success (summary : String) (checklist : List ChecklistItem) (top_wins : List String)
  | failed (reason : String)
deriving DecidableEq, Repr

/-- The AI field recorded for a summarization outcome: failures become an
error marker, they are never rethrown. -/
def aiFieldOf : AICallOutcome → AIField
  | .success s c t => .ok s c t
  | .failed r => .errorMarker r

/-- Modelled from the spec: the per-job pipeline (sections 4.2 to 4.4, absent
from src). When the file tree is readable the job always finishes done with a
fully formed AnalysisResult built from the aggregate and the AI outcome, the
projectId back-reference set at build time; only a missing or unreadable tree
escalates the job to error. -/
def runPipeline (j : Job) (treeOk : Bool) (outcomes : List ToolOutcome)
    (ai : AICallOutcome) : Job :=
  if treeOk then
    { j with
        status := .done,
        results := some
          { vpoints := (aggregate outcomes).1,
            ai := aiFieldOf ai,
            tool_errors := (aggregate outcomes).2,
            projectId := some j.projectId },
        error := none }
  else
    { j with
        status := .error,
        results := none,
        error := some "project file tree missing or unreadable" }

/-- Body of a fetch request: multipart form data, a JSON string, or none. -/
inductive FetchBody where
  | formData (fields : List (String × String))
  | jsonString (payload : String)
  | empty
deriving DecidableEq, Repr

/-- Whether a body is a FormData instance, mirroring init.body instanceof
FormData in withAuth. -/
def isFormData : FetchBody → Bool
  | .formData _ => true
  | _ => false

/-- A fetch request as assembled by the client wrappers in api.ts. -/
structure Request where
  url : String
  method : String
  headers : List (String × String)
  body : FetchBody
deriving DecidableEq, Repr

/-- Headers.set: replaces any existing entry for the key. -/
def setHeader (hs : List (String × String)) (k v : String) :
    List (String × String) :=
  (hs.filter fun p => !(decide (p.1 = k))) ++ [(k, v)]

/-- Headers.get: the value stored for a key, if any. -/
def getHeader (hs : List (String × String)) (k : String) : Option String :=
  (hs.find? fun p => decide (p.1 = k)).map Prod.snd

/-- Headers.has: whether a key is present. -/
def hasHeader (hs : List (String × String)) (k : String) : Bool :=
  (getHeader hs k).isSome

/-- The withAuth helper of api.ts: adds a bearer Authorization header when a
user token is available, and sets Content-Type application/json only when the
body is not FormData and no Content-Type was already provided. -/
def withAuth (token : Option String) (init : Request) : Request :=
  let hs1 := match token with
    | some t => setHeader init.headers "Authorization" ("Bearer " ++ t)
    | none => init.headers
  let hs2 :=
    if !(isFormData init.body) && !(hasHeader hs1 "Content-Type") then
      setHeader hs1 "Content-Type" "application/json"
    else hs1
  { init with headers := hs2 }

/-- The request built by uploadZip in api.ts: a POST of a FormData body whose
single field is named file, to the project upload route. -/
def uploadZipRequest (token : Option String) (projectId fileName : String) :
    Request :=
  withAuth token
    { url := "/api/projects/" ++ projectId ++ "/upload",
      method := "POST",
      headers := [],
      body := .formData [("file", fileName)] }

/-- An HTTP response as the wrappers observe it: ok flag, status code and
text, and the body text. -/
structure HttpResponse where
  ok : Bool
  status : Nat
  statusText : String
  bodyText : String
deriving DecidableEq, Repr

/-- Outcome of a wrapper call: the parsed JSON body (represented by its text)
on success, or a thrown Error with its message. -/
inductive CallResult where
  | success (body : String)
  | thrown (message : String)
deriving DecidableEq, Repr

/-- The text-or-status fallback: the body text when non-empty (JS truthiness
of the string), otherwise status code and status text. -/
def statusFallback (res : HttpResponse) : String :=
  if res.bodyText = "" then toString res.status ++ " " ++ res.statusText
  else res.bodyText

/-- Response handling of ping: throw the body text with status fallback on a
failed response, otherwise return the parsed JSON body. -/
def pingHandle (res : HttpResponse) : CallResult :=
  if res.ok then .success res.bodyText else .thrown (statusFallback res)

/-- Response handling of whoAmI: same shape as ping. -/
def whoAmIHandle (res : HttpResponse) : CallResult :=
  if res.ok then .success res.bodyText else .thrown (statusFallback res)

/-- Response handling of getJob: same shape as ping, with the fallback. -/
def getJobHandle (res : HttpResponse) : CallResult :=
  if res.ok then .success res.bodyText else .thrown (statusFallback res)

/-- Response handling of createProject: reads the body text first, throws it
verbatim on a failed response, no status fallback. -/
def createProjectHandle (res : HttpResponse) : CallResult :=
  if res.ok then .success res.bodyText else .thrown res.bodyText

/-- Response handling of createJob: same shape as createProject. -/
def createJobHandle (res : HttpResponse) : CallResult :=
  if res.ok then .success res.bodyText else .thrown res.bodyText

/-- Response handling of uploadZip: same shape as createProject. -/
def uploadZipHandle (res : HttpResponse) : CallResult :=
  if res.ok then .success res.bodyText else .thrown res.bodyText

/-- Response handling of listProjects: throws the body text verbatim. -/
def listProjectsHandle (res : HttpResponse) : CallResult :=
  if res.ok then .success res.bodyText else .thrown res.bodyText

/-- Response handling of listJobs: throws the body text verbatim. -/
def listJobsHandle (res : HttpResponse) : CallResult :=
  if res.ok then .success res.bodyText else .thrown res.bodyText

/-- Response handling of importGithub: throws the body text verbatim. -/
def importGithubHandle (res : HttpResponse) : CallResult :=
  if res.ok then .success res.bodyText else .thrown res.bodyText

/-- JS truthiness test the client applies to results.projectId: missing or
empty string is falsy. -/
def isFalsyProjectId : Option String → Bool
  | none => true
  | some s => decide (s = "")

/-- The client patch applied to a terminal result before display (poll in
runAnalysis, the GitHub import poll, and the jobs table View handler): when
the result exists and its projectId is falsy, write the surrounding project
id into it so the viewer can fetch files. -/
def ensureProjectId (r : Option AnalysisResult) (pid : String) :
    Option AnalysisResult :=
  match r with
  | none => none
  | some res =>
    if isFalsyProjectId res.projectId then
      some { res with projectId := some pid }
    else some res

/-- Whether a status string is terminal in the sense the client tests:
done or error. -/
def isTerminal (s : JobStatus) : Bool :=
  decide (s = .done) || decide (s = .error)

/-- The status strings the backend serves and the client compares against. -/
def statusString : JobStatus → String
  | .pending => "pending"
  | .running => "running"
  | .done => "done"
  | .error => "error"

/-- The client UI state touched by the poll loop. -/
structure UIState where
  jobStatus : String
  jobResults : Option AnalysisResult
  jobError : Option String
deriving DecidableEq, Repr

/-- One iteration of the poll loop in runAnalysis (part_002): show the
snapshot status; on a terminal status record the patched results, record the
error message when the status is error, and stop; otherwise schedule another
poll (the returned flag, the setTimeout of 1500 ms in the source). -/
def pollStep (pid : String) (s : UIState) (d : Job) : UIState × Bool :=
  let s1 := { s with jobStatus := statusString d.status }
  if isTerminal d.status then
    let s2 := { s1 with jobResults := ensureProjectId d.results pid }
    let s3 :=
      if d.status = .error then
        { s2 with jobError := some (d.error.getD "Job failed") }
      else s2
    (s3, false)
  else (s1, true)

/-- The poll loop run over a trace of successive getJob snapshots: returns
the final UI state and the number of getJob calls made. -/
def pollTrace (pid : String) (s : UIState) : List Job → UIState × Nat
  | [] => (s, 0)
  | d :: rest =>
    let step := pollStep pid s d
    if step.2 then
      let tail := pollTrace pid step.1 rest
      (tail.1, tail.2 + 1)
    else (step.1, 1)

/-- Modelled from the spec: getJob (section 4.2, absent from src) returns the
current Job snapshot from the store without any blocking wait, modelled as a
pure lookup. -/
def getJobSnapshot (store : String → Option Job) (jobId : String) :
    Option Job :=
  store jobId

/-- The wrapper names exported by src/frontend/src/lib/api.ts, in source
order; importGithub is the last export. -/
def apiTsExports : List String :=
  ["ping", "whoAmI", "createProject", "createJob", "uploadZip", "getJob",
   "listProjects", "listJobs", "importGithub"]

/-- The names the newer App component (src/unnamed/part_002, first document)
imports from ./lib/api. -/
def appTsxApiImports : List String :=
  ["ping", "whoAmI", "createProject", "createJob", "uploadZip", "getJob",
   "listProjects", "listJobs", "importGithub", "getProjectFile"]

/-- Errors of the File Tree Accessor (section 4.5). -/
inductive FileAccessError where
  | notFound
  | invalidPath
deriving DecidableEq, Repr

/-- Slash-separated segments of a path, as lists of characters. -/
def splitSegs : List Char → List (List Char)
  | [] => [[]]
  | c :: rest =>
    let r := splitSegs rest
    if c = '/' then [] :: r
    else
      match r with
      | [] => [[c]]
      | s :: ss => (c :: s) :: ss

/-- Whether a caller-supplied path contains a parent-directory traversal
segment. -/
def hasParentTraversal (path : String) : Bool :=
  (splitSegs path.toList).any fun seg => decide (seg = ['.', '.'])

/-- Modelled from the spec: the File Tree Accessor getFile(projectId, path)
(section 4.5, absent from src): the mandatory traversal check rejects paths
that would escape the project root with InvalidPath; an unresolved project or
path yields NotFound; otherwise the path and file content are returned. -/
def getFile (projects : List (String × List (String × String)))
    (projectId path : String) : Except FileAccessError (String × String) :=
  if hasParentTraversal path then .error .invalidPath
  else
    match (projects.find? fun p => decide (p.1 = projectId)).map Prod.snd with
    | none => .error .notFound
    | some files =>
      match (files.find? fun f => decide (f.1 = path)).map Prod.snd with
      | none => .error .notFound
      | some content => .ok (path, content)

/-- Unfolding of concatFindings over a cons cell. -/
theorem concatFindings_cons (o : ToolOutcome) (t : List ToolOutcome) :
    concatFindings (o :: t) = o.contributed ++ concatFindings t := by
  simp [concatFindings]

/-- When every tool fails, the concatenation of contributed findings is
empty. -/
theorem concatFindings_all_err (outcomes : List ToolOutcome)
    (h : ∀ o ∈ outcomes, ∃ m, o = ToolOutcome.err m) :
    concatFindings outcomes = [] := by
  induction outcomes with
  | nil => rfl
  | cons o t ih =>
    rcases h o (List.mem_cons_self o t) with ⟨m, rfl⟩
    rw [concatFindings_cons]
    have ht := ih fun x hx => h x (List.mem_cons_of_mem _ hx)
    simp [ToolOutcome.contributed, ht]

/-- When every tool fails, one per-tool error is recorded per tool. -/
theorem toolErrors_length_all_err (outcomes : List ToolOutcome)
    (h : ∀ o ∈ outcomes, ∃ m, o = ToolOutcome.err m) :
    (outcomes.filterMap ToolOutcome.toolError).length = outcomes.length := by
  induction outcomes with
  | nil => rfl
  | cons o t ih =>
    rcases h o (List.mem_cons_self o t) with ⟨m, rfl⟩
    have ht := ih fun x hx => h x (List.mem_cons_of_mem _ hx)
    simp [ToolOutcome.toolError, ht]

/-- A sample result payload used as concrete input in witnesses. -/
def emptyResult : AnalysisResult :=
  { vpoints := [], ai := .errorMarker "summarization failed",
    tool_errors := [], projectId := some "p1" }

/-- A freshly created sample job. -/
def jobPendingEx : Job := mkJob "j1" "p1"

/-- The sample job after the orchestrator picks it up. -/
def jobRunningEx : Job := { jobPendingEx with status := .running }

/-- The sample job after a successful terminal transition. -/
def jobDoneEx : Job :=
  { jobRunningEx with
      status := .done,
      results := some emptyResult,
      error := none }

/-- The sample done job is reachable through the state machine. -/
theorem jobDoneEx_reachable : ReachableJob jobDoneEx :=
  ReachableJob.step
    (ReachableJob.step (ReachableJob.init "j1" "p1")
      (JobStep.start jobPendingEx rfl))
    (JobStep.finishDone jobRunningEx emptyResult rfl)

/-- No state-machine step leaves a terminal job. -/
theorem jobStep_not_from_terminal {a b : Job} (h : JobStep a b) :
    a.status ≠ JobStatus.done ∧ a.status ≠ JobStatus.error := by
  cases h with
  | start hp => constructor <;> simp [hp]
  | finishDone r hr => constructor <;> simp [hr]
  | finishError e hr => constructor <;> simp [hr]

/-- C1: for every reachable Job, when the status is terminal exactly one of
results and error is non-null, and while pending or running both are null. -/
theorem c1_results_error_exclusive : ∀ j : Job, ReachableJob j →
    ((j.status = JobStatus.done ∨ j.status = JobStatus.error) →
      ((j.results ≠ none) ↔ j.error = none)) ∧
    ((j.status = JobStatus.pending ∨ j.status = JobStatus.running) →
      (j.results = none ∧ j.error = none)) := by
  intro j h
  induction h with
  | init id pid =>
    constructor
    · rintro (h | h) <;> simp [mkJob] at h
    · intro _; exact ⟨rfl, rfl⟩
  | step ha hstep ih =>
    cases hstep with
    | start hp =>
      constructor
      · rintro (h | h) <;> simp at h
      · intro _; exact ih.2 (Or.inl hp)
    | finishDone r hr =>
      constructor
      · intro _
        constructor
        · intro _; rfl
        · intro _; simp
      · rintro (h | h) <;> simp at h
    | finishError e hr =>
      constructor
      · intro _
        constructor
        · intro hne; simp at hne
        · intro he; simp at he
      · rintro (h | h) <;> simp at h

/-- C1 witness: at the concrete reachable done job the invariant evaluates:
results is non-null and error is null. -/
theorem c1_witness : (jobDoneEx.results ≠ none) ↔ jobDoneEx.error = none :=
  (c1_results_error_exclusive jobDoneEx jobDoneEx_reachable).1 (Or.inl rfl)

/-- C2: every Job status is one of the four lifecycle states, and from a
terminal job no sequence of state-machine steps reaches a different
snapshot: subsequent reads observe the same status. -/
theorem c2_terminal_immutable :
    (∀ j : Job, j.status = JobStatus.pending ∨ j.status = JobStatus.running ∨
      j.status = JobStatus.done ∨ j.status = JobStatus.error) ∧
    (∀ a b : Job, Relation.ReflTransGen JobStep a b →
      (a.status = JobStatus.done ∨ a.status = JobStatus.error) → b = a) := by
  constructor
  · intro j
    rcases j with ⟨id, pid, st, rs, er⟩
    cases st <;> simp
  · intro a b h hterm
    rcases Relation.ReflTransGen.cases_head h with heq | ⟨c, hac, _⟩
    · exact heq.symm
    · rcases jobStep_not_from_terminal hac with ⟨h1, h2⟩
      rcases hterm with ht | ht
      · exact absurd ht h1
      · exact absurd ht h2

/-- C2 witness: the reflexive chain from the concrete done job can only
observe that same job. -/
theorem c2_witness : jobDoneEx = jobDoneEx :=
  c2_terminal_immutable.2 jobDoneEx jobDoneEx Relation.ReflTransGen.refl
    (Or.inl rfl)

/-- C4: when every configured tool fails, the pipeline still finishes done
with an empty finding sequence and one recorded error per tool; it does not
take the error transition. -/
theorem c4_all_tools_fail_still_done :
    ∀ (j : Job) (outcomes : List ToolOutcome) (ai : AICallOutcome),
      (∀ o ∈ outcomes, ∃ m, o = ToolOutcome.err m) →
      (runPipeline j true outcomes ai).status = JobStatus.done ∧
      ∃ res, (runPipeline j true outcomes ai).results = some res ∧
        res.vpoints = [] ∧
        res.tool_errors.length = outcomes.length := by
  intro j outcomes ai h
  have hc : concatFindings outcomes = [] := concatFindings_all_err outcomes h
  refine ⟨rfl, ⟨_, rfl, ?_, ?_⟩⟩
  · show (aggregate outcomes).1 = []
    simp [aggregate, hc, dedupByKey]
  · show (aggregate outcomes).2.length = outcomes.length
    exact toolErrors_length_all_err outcomes h

/-- C4 witness: with two failing tools the pipeline finishes done, with no
findings and two recorded tool errors. -/
theorem c4_witness :
    (runPipeline jobRunningEx true
      [ToolOutcome.err "boom", ToolOutcome.err "bust"]
      (AICallOutcome.failed "nope")).status = JobStatus.done ∧
    ∃ res, (runPipeline jobRunningEx true
      [ToolOutcome.err "boom", ToolOutcome.err "bust"]
      (AICallOutcome.failed "nope")).results = some res ∧
      res.vpoints = [] ∧
      res.tool_errors.length =
        [ToolOutcome.err "boom", ToolOutcome.err "bust"].length :=
  c4_all_tools_fail_still_done jobRunningEx
    [ToolOutcome.err "boom", ToolOutcome.err "bust"]
    (AICallOutcome.failed "nope")
    (by
      intro o ho
      simp only [List.mem_cons, List.not_mem_nil, or_false] at ho
      rcases ho with rfl | rfl
      · exact ⟨"boom", rfl⟩
      · exact ⟨"bust", rfl⟩)

/-- C5: when the AI summarization call fails, times out or is unparseable,
the job still finishes done and the ai field of its result carries the error
marker rather than a raised exception. -/
theorem c5_ai_failure_still_done :
    ∀ (j : Job) (outcomes : List ToolOutcome) (reason : String),
      (runPipeline j true outcomes (AICallOutcome.failed reason)).status =
        JobStatus.done ∧
      ∃ res,
        (runPipeline j true outcomes (AICallOutcome.failed reason)).results =
          some res ∧
        res.ai = AIField.errorMarker reason := by
  intro j outcomes reason
  exact ⟨rfl, ⟨_, rfl, rfl⟩⟩

/-- find? is unchanged by filtering with a predicate that keeps every
element the search predicate accepts. -/
theorem find?_filter_of_imp {α : Type} (l : List α) (p q : α → Bool)
    (h : ∀ x, p x = true → q x = true) :
    (l.filter q).find? p = l.find? p := by
  induction l with
  | nil => rfl
  | cons x t ih =>
    by_cases hq : q x = true
    · rw [List.filter_cons_of_pos hq]
      by_cases hp : p x = true
      · rw [List.find?_cons_of_pos _ hp, List.find?_cons_of_pos _ hp]
      · rw [List.find?_cons_of_neg _ hp, List.find?_cons_of_neg _ hp, ih]
    · have hp : ¬ p x = true := fun hpx => hq (h x hpx)
      rw [List.filter_cons_of_neg (by simpa using hq),
        List.find?_cons_of_neg _ hp, ih]

/-- Reading back the key just set by setHeader yields the new value. -/
theorem getHeader_setHeader_self (hs : List (String × String)) (k v : String) :
    getHeader (setHeader hs k v) k = some v := by
  have h1 : (hs.filter fun p => !(decide (p.1 = k))).find?
      (fun p => decide (p.1 = k)) = none := by
    refine List.find?_eq_none.mpr ?_
    intro x hx
    have hkeep := (List.mem_filter.mp hx).2
    simp at hkeep
    simp [hkeep]
  simp [getHeader, setHeader, List.find?_append, h1]

/-- setHeader leaves every other key unchanged. -/
theorem getHeader_setHeader_ne (hs : List (String × String)) (k v k2 : String)
    (h : k2 ≠ k) :
    getHeader (setHeader hs k v) k2 = getHeader hs k2 := by
  have h1 : (hs.filter fun p => !(decide (p.1 = k))).find?
      (fun p => decide (p.1 = k2)) = hs.find? (fun p => decide (p.1 = k2)) := by
    refine find?_filter_of_imp hs _ _ ?_
    intro x hx
    simp at hx
    simp [hx, h]
  have h2 : ¬(k = k2) := fun hh => h hh.symm
  simp [getHeader, setHeader, List.find?_append, h1, h2]

/-- C9: uploadZip issues a POST to the project upload route with a FormData
body whose single field is named file and no application/json Content-Type;
in general withAuth sets the JSON Content-Type exactly when the body is not
FormData and no Content-Type was already provided. -/
theorem c9_uploadZip_multipart_no_json :
    ∀ (token : Option String) (pid fileName : String) (init : Request),
      ((uploadZipRequest token pid fileName).method = "POST" ∧
       (uploadZipRequest token pid fileName).url =
         "/api/projects/" ++ pid ++ "/upload" ∧
       (uploadZipRequest token pid fileName).body =
         FetchBody.formData [("file", fileName)] ∧
       getHeader (uploadZipRequest token pid fileName).headers
         "Content-Type" = none) ∧
      (getHeader (withAuth token init).headers "Content-Type" =
        if isFormData init.body || hasHeader init.headers "Content-Type" then
          getHeader init.headers "Content-Type"
        else some "application/json") := by
  have hCT : ∀ (token : Option String) (init : Request),
      getHeader (withAuth token init).headers "Content-Type" =
        if isFormData init.body || hasHeader init.headers "Content-Type" then
          getHeader init.headers "Content-Type"
        else some "application/json" := by
    intro token init
    have hne : "Content-Type" ≠ "Authorization" := by decide
    obtain ⟨hs1, hhs1, hpres⟩ :
        ∃ hs1, (withAuth token init).headers =
          (if !(isFormData init.body) && !(hasHeader hs1 "Content-Type") then
            setHeader hs1 "Content-Type" "application/json"
          else hs1) ∧
          getHeader hs1 "Content-Type" =
            getHeader init.headers "Content-Type" := by
      cases token with
      | none => exact ⟨init.headers, rfl, rfl⟩
      | some t =>
        exact ⟨setHeader init.headers "Authorization" ("Bearer " ++ t), rfl,
          getHeader_setHeader_ne init.headers "Authorization"
            ("Bearer " ++ t) "Content-Type" hne⟩
    have hhas1 : hasHeader hs1 "Content-Type" =
        hasHeader init.headers "Content-Type" := by
      simp [hasHeader, hpres]
    rw [hhs1]
    by_cases hfd : isFormData init.body = true
    · rw [if_neg (by simp [hfd]), if_pos (by simp [hfd])]
      exact hpres
    · by_cases hct : hasHeader init.headers "Content-Type" = true
      · rw [if_neg (by simp [hhas1, hct]), if_pos (by simp [hct])]
        exact hpres
      · rw [if_pos ?hcond, if_neg ?hcond2]
        · exact getHeader_setHeader_self hs1 "Content-Type" "application/json"
        case hcond =>
          simp only [Bool.not_eq_true] at hfd hct
          simp [hfd, hhas1, hct]
        case hcond2 =>
          simp only [Bool.not_eq_true] at hfd hct
          simp [hfd, hct]
  intro token pid fileName init
  refine ⟨⟨?_, ?_, ?_, ?_⟩, hCT token init⟩
  · cases token <;> rfl
  · cases token <;> rfl
  · cases token <;> rfl
  · have := hCT token
      { url := "/api/projects/" ++ pid ++ "/upload",
        method := "POST",
        headers := [],
        body := .formData [("file", fileName)] }
    simpa [uploadZipRequest, isFormData, hasHeader, getHeader] using this

/-- A failed response with an empty body, used as concrete input. -/
def emptyBodyFailure : HttpResponse :=
  { ok := false, status := 500, statusText := "Internal Server Error",
    bodyText := "" }

/-- C10 counterexample: on a failed response with an empty body,
createProject throws an Error whose message is the empty body text, not the
status-code fallback the claim promises for every wrapper. -/
theorem c10_counterexample :
    createProjectHandle emptyBodyFailure = CallResult.thrown "" ∧
    statusFallback emptyBodyFailure = "500 Internal Server Error" ∧
    decide (createProjectHandle emptyBodyFailure =
      CallResult.thrown (statusFallback emptyBodyFailure)) = false := by
  refine ⟨rfl, by decide, by decide⟩

/-- C10 amended: every wrapper returns the parsed body on an ok response and
throws on a failed one; ping, whoAmI and getJob throw the body text with the
status fallback for an empty body, while createProject, createJob, uploadZip,
listProjects, listJobs and importGithub throw the body text verbatim. -/
theorem c10_wrapper_error_policy :
    ∀ res : HttpResponse,
      (res.ok = true →
        pingHandle res = CallResult.success res.bodyText ∧
        whoAmIHandle res = CallResult.success res.bodyText ∧
        getJobHandle res = CallResult.success res.bodyText ∧
        createProjectHandle res = CallResult.success res.bodyText ∧
        createJobHandle res = CallResult.success res.bodyText ∧
        uploadZipHandle res = CallResult.success res.bodyText ∧
        listProjectsHandle res = CallResult.success res.bodyText ∧
        listJobsHandle res = CallResult.success res.bodyText ∧
        importGithubHandle res = CallResult.success res.bodyText) ∧
      (res.ok = false →
        pingHandle res = CallResult.thrown (statusFallback res) ∧
        whoAmIHandle res = CallResult.thrown (statusFallback res) ∧
        getJobHandle res = CallResult.thrown (statusFallback res) ∧
        createProjectHandle res = CallResult.thrown res.bodyText ∧
        createJobHandle res = CallResult.thrown res.bodyText ∧
        uploadZipHandle res = CallResult.thrown res.bodyText ∧
        listProjectsHandle res = CallResult.thrown res.bodyText ∧
        listJobsHandle res = CallResult.thrown res.bodyText ∧
        importGithubHandle res = CallResult.thrown res.bodyText) := by
  intro res
  constructor
  · intro h
    simp [pingHandle, whoAmIHandle, getJobHandle, createProjectHandle,
      createJobHandle, uploadZipHandle, listProjectsHandle, listJobsHandle,
      importGithubHandle, h]
  · intro h
    simp [pingHandle, whoAmIHandle, getJobHandle, createProjectHandle,
      createJobHandle, uploadZipHandle, listProjectsHandle, listJobsHandle,
      importGithubHandle, h]

/-- C10 amended witness: at the concrete empty-body failure, createProject
throws the empty body text. -/
theorem c10_wrapper_error_policy_witness :
    createProjectHandle emptyBodyFailure =
      CallResult.thrown emptyBodyFailure.bodyText :=
  ((c10_wrapper_error_policy emptyBodyFailure).2 rfl).2.2.2.1

/-- A concrete terminal result that lacks the projectId back-reference. -/
def resultNoProjectId : AnalysisResult :=
  { vpoints := [], ai := .errorMarker "summarization failed",
    tool_errors := [], projectId := none }

/-- C6 counterexample: on a result built without projectId, the consumer is
not a pass-through: the client patch rewrites the result, so the field was
not delivered set and the viewer depends on consumer patching. -/
theorem c6_counterexample :
    isFalsyProjectId resultNoProjectId.projectId = true ∧
    decide (ensureProjectId (some resultNoProjectId) "p1" =
      some resultNoProjectId) = false := by
  exact ⟨rfl, by decide⟩

/-- C6 amended: the client patches the projectId back-reference itself: when
a terminal result exists but its projectId is missing or empty, the poll
handler and the jobs-table View handler write the surrounding project id into
the result, and they leave a result that already carries a projectId
unchanged; a null result stays null. -/
theorem c6_client_patches_projectId :
    ∀ (res : AnalysisResult) (pid : String),
      (isFalsyProjectId res.projectId = true →
        ensureProjectId (some res) pid =
          some { res with projectId := some pid }) ∧
      (isFalsyProjectId res.projectId = false →
        ensureProjectId (some res) pid = some res) ∧
      ensureProjectId none pid = none := by
  intro res pid
  refine ⟨fun h => ?_, fun h => ?_, rfl⟩
  · simp [ensureProjectId, h]
  · simp [ensureProjectId, h]

/-- C6 amended witness: the concrete result without projectId gets the
project id patched in. -/
theorem c6_client_patches_projectId_witness :
    ensureProjectId (some resultNoProjectId) "p1" =
      some { resultNoProjectId with projectId := some "p1" } :=
  (c6_client_patches_projectId resultNoProjectId "p1").1 rfl

/-- C7: getJob returns the stored snapshot without waiting, and the client
poll loop schedules another poll after exactly the non-terminal snapshots:
one iteration stops iff the observed status is done or error, and over a
trace whose first terminal snapshot follows a block of non-terminal ones the
loop makes exactly that many getJob calls and stops. -/
theorem c7_poll_until_terminal :
    (∀ (store : String → Option Job) (jobId : String),
      getJobSnapshot store jobId = store jobId) ∧
    (∀ (pid : String) (s : UIState) (d : Job),
      (pollStep pid s d).2 = false ↔
        (d.status = JobStatus.done ∨ d.status = JobStatus.error)) ∧
    (∀ (pid : String) (s : UIState) (pre : List Job) (d : Job)
        (rest : List Job),
      (∀ x ∈ pre, isTerminal x.status = false) →
      isTerminal d.status = true →
      (pollTrace pid s (pre ++ d :: rest)).2 = pre.length + 1) := by
  refine ⟨fun store jobId => rfl, ?_, ?_⟩
  · intro pid s d
    cases hd : d.status <;> simp [pollStep, isTerminal, hd]
  · intro pid s pre d rest hpre hd
    induction pre generalizing s with
    | nil =>
      simp only [List.nil_append, pollTrace, pollStep]
      simp [hd]
    | cons x t ih =>
      have hx : isTerminal x.status = false := hpre x (List.mem_cons_self x t)
      have ht : ∀ y ∈ t, isTerminal y.status = false :=
        fun y hy => hpre y (List.mem_cons_of_mem _ hy)
      simp only [List.cons_append, pollTrace, pollStep, hx]
      simp only [Bool.false_eq_true, if_false, if_true]
      simp only [List.append_eq]
      rw [ih _ ht]
      simp

/-- C7 witness: over the concrete trace of one running snapshot followed by a
done snapshot, the loop makes exactly two getJob calls. -/
theorem c7_witness :
    (pollTrace "p1"
      { jobStatus := "pending", jobResults := none, jobError := none }
      ([jobRunningEx] ++ jobDoneEx :: [])).2 = 2 :=
  c7_poll_until_terminal.2.2 "p1"
    { jobStatus := "pending", jobResults := none, jobError := none }
    [jobRunningEx] jobDoneEx []
    (by
      intro x hx
      have hx1 := List.mem_singleton.mp hx
      subst hx1
      decide)
    (by decide)

/-- C8: the client source imports getProjectFile but api.ts never exports it,
and the spec-modelled getFile rejects every path containing a
parent-directory traversal segment such as ../secret with InvalidPath. -/
theorem c8_getProjectFile_gap :
    appTsxApiImports.contains "getProjectFile" = true ∧
    apiTsExports.contains "getProjectFile" = false ∧
    (∀ (projects : List (String × List (String × String))) (pid : String),
      getFile projects pid "../secret" =
        Except.error FileAccessError.invalidPath) := by
  refine ⟨by decide, by decide, ?_⟩
  intro projects pid
  have h : hasParentTraversal "../secret" = true := by decide
  simp [getFile, h]

/-- dedupByKey on the empty list. -/
theorem dedupByKey_nil : dedupByKey [] = [] := by
  simp [dedupByKey]

/-- dedupByKey keeps the head and recurses on the tail purged of its key. -/
theorem dedupByKey_cons (f : Finding) (rest : List Finding) :
    dedupByKey (f :: rest) =
      f :: dedupByKey
        (rest.filter fun g => !(decide (identityKey g = identityKey f))) := by
  simp [dedupByKey]

/-- Every deduplicated finding comes from the input list. -/
theorem mem_dedupByKey : ∀ (l : List Finding) (a : Finding),
    a ∈ dedupByKey l → a ∈ l := by
  intro l
  induction l using dedupByKey.induct with
  | case1 =>
    intro a ha
    rw [dedupByKey_nil] at ha
    exact absurd ha (List.not_mem_nil a)
  | case2 f rest ih =>
    intro a ha
    rw [dedupByKey_cons] at ha
    rcases List.mem_cons.mp ha with h | h
    · subst h; exact List.mem_cons_self _ _
    · exact List.mem_cons_of_mem f (List.mem_of_mem_filter (ih a h))

/-- Every input finding has a representative of its identity key among the
deduplicated findings. -/
theorem dedupByKey_covers : ∀ (l : List Finding) (a : Finding), a ∈ l →
    ∃ g ∈ dedupByKey l, identityKey g = identityKey a := by
  intro l
  induction l using dedupByKey.induct with
  | case1 =>
    intro a ha
    exact absurd ha (List.not_mem_nil a)
  | case2 f rest ih =>
    intro a ha
    rw [dedupByKey_cons]
    by_cases hk : identityKey a = identityKey f
    · exact ⟨f, List.mem_cons_self _ _, hk.symm⟩
    · have harest : a ∈ rest := by
        rcases List.mem_cons.mp ha with h | h
        · exact absurd (by rw [h]) hk
        · exact h
      have hafilter :
          a ∈ rest.filter fun g => !(decide (identityKey g = identityKey f)) :=
        List.mem_filter.mpr ⟨harest, by simp [hk]⟩
      rcases ih a hafilter with ⟨g, hg, hkey⟩
      exact ⟨g, List.mem_cons_of_mem f hg, hkey⟩

/-- A deduplicated finding is the first occurrence of its identity key in the
input list. -/
theorem dedupByKey_keeps_first : ∀ (l : List Finding) (g : Finding),
    g ∈ dedupByKey l →
    l.find? (fun f => decide (identityKey f = identityKey g)) = some g := by
  intro l
  induction l using dedupByKey.induct with
  | case1 =>
    intro g hg
    rw [dedupByKey_nil] at hg
    exact absurd hg (List.not_mem_nil g)
  | case2 f rest ih =>
    intro g hg
    rw [dedupByKey_cons] at hg
    rcases List.mem_cons.mp hg with h | h
    · subst h
      exact List.find?_cons_of_pos _ (by simp)
    · have hgf :
          g ∈ rest.filter fun x => !(decide (identityKey x = identityKey f)) :=
        mem_dedupByKey _ g h
      have hkne : ¬(identityKey g = identityKey f) := by
        have hkeep := (List.mem_filter.mp hgf).2
        simpa using hkeep
      rw [List.find?_cons_of_neg _ ?hf]
      case hf =>
        simp only [decide_eq_true_eq]
        exact fun hh => hkne hh.symm
      rw [← find?_filter_of_imp rest
        (fun x => decide (identityKey x = identityKey g))
        (fun x => !(decide (identityKey x = identityKey f))) ?himp]
      · exact ih g h
      case himp =>
        intro x hx
        simp only [decide_eq_true_eq] at hx
        simp [hx, hkne]

/-- The identity keys of the deduplicated findings are pairwise distinct. -/
theorem dedupByKey_keys_nodup : ∀ l : List Finding,
    ((dedupByKey l).map identityKey).Nodup := by
  intro l
  induction l using dedupByKey.induct with
  | case1 =>
    rw [dedupByKey_nil]
    exact List.nodup_nil
  | case2 f rest ih =>
    rw [dedupByKey_cons, List.map_cons]
    refine List.nodup_cons.mpr ⟨?_, ih⟩
    intro hmem
    rcases List.mem_map.mp hmem with ⟨g, hg, hkey⟩
    have hgf := mem_dedupByKey _ g hg
    have hkeep := (List.mem_filter.mp hgf).2
    simp only [Bool.not_eq_eq_eq_not, Bool.not_true, decide_eq_false_iff_not] at hkeep
    exact hkeep hkey

/-- The finding order is transitive. -/
theorem findingLE_trans : ∀ a b c : Finding,
    findingLE a b = true → findingLE b c = true → findingLE a c = true := by
  intro a b c hab hbc
  simp only [findingLE, Bool.or_eq_true, Bool.and_eq_true,
    decide_eq_true_eq] at hab hbc ⊢
  rcases hab with h1 | ⟨hp1, h2⟩ <;> rcases hbc with h3 | ⟨hp3, h4⟩
  · exact Or.inl (lt_trans h1 h3)
  · exact Or.inl (by rw [← hp3]; exact h1)
  · exact Or.inl (by rw [hp1]; exact h3)
  · refine Or.inr ⟨by rw [hp1, hp3], ?_⟩
    omega

/-- The finding order is total. -/
theorem findingLE_total : ∀ a b : Finding,
    (findingLE a b || findingLE b a) = true := by
  intro a b
  simp only [findingLE, Bool.or_eq_true, Bool.and_eq_true, decide_eq_true_eq]
  rcases lt_trichotomy a.path b.path with h | h | h
  · exact Or.inl (Or.inl h)
  · rcases Nat.lt_trichotomy a.line b.line with hl | hl | hl
    · exact Or.inl (Or.inr ⟨h, Or.inl hl⟩)
    · rcases Nat.le_total (severityRank b.severity) (severityRank a.severity)
        with hs | hs
      · exact Or.inl (Or.inr ⟨h, Or.inr ⟨hl, hs⟩⟩)
      · exact Or.inr (Or.inr ⟨h.symm, Or.inr ⟨hl.symm, hs⟩⟩)
    · exact Or.inr (Or.inr ⟨h.symm, Or.inl hl⟩)
  · exact Or.inr (Or.inl h)

/-- C3: the aggregated finding sequence is sorted by (path asc, line asc,
severity desc), has pairwise distinct identity keys, consists of first
occurrences drawn from the concatenation of all tool outputs, covers every
input key, and is a function of the raw tool outputs, so identical inputs
give identical ordered sequences. -/
theorem c3_aggregate_deterministic :
    ∀ outcomes : List ToolOutcome,
      ((aggregate outcomes).1.Pairwise fun a b => findingLE a b = true) ∧
      ((aggregate outcomes).1.map identityKey).Nodup ∧
      (∀ f ∈ (aggregate outcomes).1, f ∈ concatFindings outcomes) ∧
      (∀ f ∈ concatFindings outcomes,
        ∃ g ∈ (aggregate outcomes).1, identityKey g = identityKey f) ∧
      (∀ g ∈ (aggregate outcomes).1,
        (concatFindings outcomes).find?
          (fun f => decide (identityKey f = identityKey g)) = some g) ∧
      (∀ outcomes2, outcomes2 = outcomes →
        aggregate outcomes2 = aggregate outcomes) := by
  intro outcomes
  have hperm :=
    List.mergeSort_perm (dedupByKey (concatFindings outcomes)) findingLE
  refine ⟨?_, ?_, ?_, ?_, ?_, ?_⟩
  · exact List.sorted_mergeSort findingLE_trans findingLE_total _
  · exact ((hperm.map identityKey).nodup_iff).mpr
      (dedupByKey_keys_nodup (concatFindings outcomes))
  · intro f hf
    exact mem_dedupByKey _ f (hperm.mem_iff.mp hf)
  · intro f hf
    rcases dedupByKey_covers (concatFindings outcomes) f hf with ⟨g, hg, hkey⟩
    exact ⟨g, hperm.mem_iff.mpr hg, hkey⟩
  · intro g hg
    exact dedupByKey_keeps_first _ g (hperm.mem_iff.mp hg)
  · intro outcomes2 h
    rw [h]

/-- A concrete high-severity finding on a.py line 3. -/
def fHigh : Finding :=
  { tool := "pylint", severity := .high, code := some "E1",
    message := "bad call", path := "a.py", line := 3, endLine := none }

/-- A concrete low-severity finding on a.py line 3. -/
def fLow : Finding :=
  { tool := "pylint", severity := .low, code := some "W1",
    message := "style", path := "a.py", line := 3, endLine := none }

/-- A concrete finding on b.py line 1. -/
def fB : Finding :=
  { tool := "flake8", severity := .medium, code := some "F1",
    message := "unused", path := "b.py", line := 1, endLine := none }

/-- Concrete raw tool outputs with a duplicated finding across tools. -/
def outcomesEx : List ToolOutcome :=
  [ToolOutcome.ok [fB, fHigh], ToolOutcome.ok [fHigh, fLow]]

/-- C3 witness: at the concrete raw outputs, the duplicated finding on
a.py line 3 is represented in the aggregated sequence by a finding with its
identity key. -/
theorem c3_witness :
    ∃ g ∈ (aggregate outcomesEx).1, identityKey g = identityKey fHigh :=
  (c3_aggregate_deterministic outcomesEx).2.2.2.1 fHigh
    (by
      show fHigh ∈ concatFindings outcomesEx
      simp [concatFindings, outcomesEx, ToolOutcome.contributed])
